import Mathlib

/-!
Verification of the rasterize-reorder-emit print pipeline of
`pdf_printer.py` (class `WorkingPDFPrinter`) and of the HTTP handlers of
`print_server.py`, against the natural-language specification.

The development shallowly embeds the relevant source functions:

* `dictInsert`, `dictPop`, `drain`, `accept`, `runRB` — the reorder logic of
  `WorkingPDFPrinter.print_worker` (the `buffer` dict, `next_page` counter and
  the `while next_page in buffer` loop);
* `convertStep`, `delivered` — the per-page behaviour of
  `WorkingPDFPrinter.convert_worker` (a failed conversion enqueues nothing);
* `DevCall`, `print_image_working`, `emitFold`, `finalClose`, `printPdf` —
  the GDI emission routine `WorkingPDFPrinter._print_image_working`, the
  error-swallowing emission loop inside `print_worker`, and the coordinator
  `WorkingPDFPrinter.print_pdf`;
* `fitToPage` — the scale-to-fit-and-center computation of
  `_print_image_working`;
* `printHandler`, `printAsyncHandler` — the `/print` and `/print-async`
  Flask handlers of `print_server.py`.
-/

namespace PdfPipeline

universe u

variable {α : Type u}

/-! ### The reorder buffer of `print_worker`
Python dict operations on `buffer` (keys are page numbers), modelled as an
association list with dict semantics: insertion replaces an existing key in
place, and keys of a buffer built only by `dictInsert` are pairwise distinct. -/

/-- `buffer[page_num] = image`: insert or replace in place. -/
def dictInsert (k : ℕ) (v : α) : List (ℕ × α) → List (ℕ × α)
  | [] => [(k, v)]
  | e :: rest => if e.1 = k then (k, v) :: rest else e :: dictInsert k v rest

/-- `page_num in buffer`. -/
def dictMem (k : ℕ) (buf : List (ℕ × α)) : Bool :=
  buf.any (fun e => e.1 = k)

/-- `buffer.pop(page_num)`: the stored value together with the remaining
buffer, or `none` when the key is absent. -/
def dictPop (k : ℕ) : List (ℕ × α) → Option (α × List (ℕ × α))
  | [] => none
  | e :: rest =>
    if e.1 = k then some (e.2, rest)
    else
      match dictPop k rest with
      | none => none
      | some (v, rest') => some (v, e :: rest')

/-- The inner loop of `print_worker`:
`while next_page in buffer: img = buffer.pop(next_page); emit; next_page += 1`.
Each iteration removes one entry, so `buf.length` steps of fuel always
suffice.  Returns the new `next_page`, the remaining buffer, and the pages
handed to the emitter (in order, with their images). -/
def drainFuel (fuel : ℕ) (next : ℕ) (buf : List (ℕ × α)) :
    ℕ × List (ℕ × α) × List (ℕ × α) :=
  match fuel with
  | 0 => (next, buf, [])
  | fuel + 1 =>
    match dictPop next buf with
    | none => (next, buf, [])
    | some (v, buf') =>
      let r := drainFuel fuel (next + 1) buf'
      (r.1, r.2.1, (next, v) :: r.2.2)

/-- The drain loop with enough fuel to run to completion. -/
def drain (next : ℕ) (buf : List (ℕ × α)) : ℕ × List (ℕ × α) × List (ℕ × α) :=
  drainFuel buf.length next buf

/-- State of the reorder stage inside `print_worker`: the local variables
`next_page` (initially 1) and `buffer` (initially empty). -/
structure RBState (α : Type u) where
  nextPage : ℕ
  buffer : List (ℕ × α)
deriving Repr, DecidableEq

/-- Initial state of `print_worker`: `next_page = 1`, `buffer = {}`. -/
def rbInit : RBState α := ⟨1, []⟩

/-- One iteration of `print_worker`'s outer loop for a received
`(page_num, image)`: `buffer[page_num] = image` followed by the drain loop.
Returns the new state and the pages handed to the emitter. -/
def accept (st : RBState α) (p : ℕ) (v : α) : RBState α × List (ℕ × α) :=
  let r := drain st.nextPage (dictInsert p v st.buffer)
  (⟨r.1, r.2.1⟩, r.2.2)

/-- Run the reorder stage from an arbitrary state over a list of arrivals,
accumulating the emitted pages. -/
def runRBFrom (st : RBState α) (out : List (ℕ × α)) (arrivals : List (ℕ × α)) :
    RBState α × List (ℕ × α) :=
  match arrivals with
  | [] => (st, out)
  | (p, v) :: rest =>
    let r := accept st p v
    runRBFrom r.1 (out ++ r.2) rest

/-- Run `print_worker`'s reorder stage from its initial state. -/
def runRB (arrivals : List (ℕ × α)) : RBState α × List (ℕ × α) :=
  runRBFrom rbInit [] arrivals

example :
    (runRB [(3, ()), (1, ()), (5, ()), (2, ()), (4, ())]).2.map Prod.fst
      = [1, 2, 3, 4, 5] := by decide

example :
    (runRB [(1, ()), (1, ()), (2, ())]).2.map Prod.fst = [1, 2] := by decide

/-! ### Dictionary lemmas -/

theorem dictPop_eq_none (k : ℕ) :
    ∀ buf : List (ℕ × α), dictPop k buf = none ↔ k ∉ buf.map Prod.fst
  | [] => by simp [dictPop]
  | e :: rest => by
    by_cases h : e.1 = k
    · simp [dictPop, h]
    · cases hp : dictPop (α := α) k rest with
      | none =>
        have hrest := (dictPop_eq_none k rest).mp hp
        simp [dictPop, h, hp, hrest, Ne.symm h]
      | some pr =>
        have hk : k ∈ rest.map Prod.fst := by
          by_contra hk
          rw [← dictPop_eq_none k rest] at hk
          rw [hk] at hp
          exact Option.noConfusion hp
        simp [dictPop, h, hp, hk]

theorem dictPop_length (k : ℕ) :
    ∀ (buf : List (ℕ × α)) (v : α) (buf' : List (ℕ × α)),
      dictPop k buf = some (v, buf') → buf'.length + 1 = buf.length
  | [], v, buf' => by simp [dictPop]
  | e :: rest, v, buf' => by
    by_cases h : e.1 = k
    · simp only [dictPop, if_pos h]
      intro he
      cases he
      rfl
    · cases hp : dictPop (α := α) k rest with
      | none => simp [dictPop, h, hp]
      | some pr =>
        simp only [dictPop, if_neg h, hp]
        intro he
        cases he
        have := dictPop_length k rest pr.1 pr.2 (by rw [hp])
        simp [List.length_cons, ← this]

theorem dictPop_keys (k : ℕ) :
    ∀ (buf : List (ℕ × α)) (v : α) (buf' : List (ℕ × α)),
      dictPop k buf = some (v, buf') →
      buf'.map Prod.fst = (buf.map Prod.fst).erase k
  | [], v, buf' => by simp [dictPop]
  | e :: rest, v, buf' => by
    by_cases h : e.1 = k
    · simp only [dictPop, if_pos h]
      intro he
      cases he
      rw [List.map_cons, h, List.erase_cons_head]
    · cases hp : dictPop (α := α) k rest with
      | none => simp [dictPop, h, hp]
      | some pr =>
        simp only [dictPop, if_neg h, hp]
        intro he
        cases he
        have ih := dictPop_keys k rest pr.1 pr.2 (by rw [hp])
        rw [List.map_cons, List.map_cons, ih,
          List.erase_cons_tail (by simpa using h)]

theorem dictPop_mem {k : ℕ} {buf : List (ℕ × α)} {v : α}
    {buf' : List (ℕ × α)} (h : dictPop k buf = some (v, buf')) :
    k ∈ buf.map Prod.fst := by
  by_contra hk
  rw [← dictPop_eq_none k buf] at hk
  rw [hk] at h
  exact Option.noConfusion h

theorem dictInsert_keys (k : ℕ) (v : α) :
    ∀ buf : List (ℕ × α),
      (dictInsert k v buf).map Prod.fst
        = if k ∈ buf.map Prod.fst then buf.map Prod.fst
          else buf.map Prod.fst ++ [k]
  | [] => by simp [dictInsert]
  | e :: rest => by
    by_cases h : e.1 = k
    · simp [dictInsert, h]
    · have ih := dictInsert_keys k v rest
      by_cases hm : k ∈ rest.map Prod.fst
      · simp [dictInsert, h, hm, Ne.symm h, ih]
      · simp [dictInsert, h, hm, Ne.symm h, ih]

theorem dictInsert_nodup {k : ℕ} {v : α} {buf : List (ℕ × α)}
    (h : (buf.map Prod.fst).Nodup) :
    ((dictInsert k v buf).map Prod.fst).Nodup := by
  rw [dictInsert_keys]
  by_cases hm : k ∈ buf.map Prod.fst
  · simpa [hm] using h
  · simp [hm, List.nodup_append, h]

theorem dictInsert_mem (k : ℕ) (v : α) (buf : List (ℕ × α)) (j : ℕ) :
    j ∈ (dictInsert k v buf).map Prod.fst ↔ j ∈ buf.map Prod.fst ∨ j = k := by
  rw [dictInsert_keys]
  by_cases hm : k ∈ buf.map Prod.fst
  · simp only [if_pos hm]
    constructor
    · exact Or.inl
    · rintro (hj | rfl)
      · exact hj
      · exact hm
  · simp [hm]

/-! ### The drain loop specification -/

theorem drainFuel_next_le :
    ∀ (f next : ℕ) (buf : List (ℕ × α)), next ≤ (drainFuel f next buf).1
  | 0, next, buf => le_refl _
  | f + 1, next, buf => by
    cases hp : dictPop (α := α) next buf with
    | none => simp [drainFuel, hp]
    | some pr =>
      have := drainFuel_next_le f (next + 1) pr.2
      simp only [drainFuel, hp]
      omega

/-- Full specification of the drain loop on a buffer with distinct keys and
enough fuel: `next` only increases, the emitted pages are exactly the
consecutive block from the old to the new `next`, the remaining buffer keeps
distinct keys and holds exactly the old keys outside that block, the new
`next` is absent from the remaining buffer, and every page of the block was
present in the buffer. -/
theorem drainFuel_spec :
    ∀ (f next : ℕ) (buf : List (ℕ × α)),
      buf.length ≤ f → (buf.map Prod.fst).Nodup →
      ((drainFuel f next buf).2.2.map Prod.fst
          = List.range' next ((drainFuel f next buf).1 - next)) ∧
      (((drainFuel f next buf).2.1.map Prod.fst).Nodup) ∧
      (∀ k, k ∈ (drainFuel f next buf).2.1.map Prod.fst ↔
          (k ∈ buf.map Prod.fst ∧ ¬(next ≤ k ∧ k < (drainFuel f next buf).1))) ∧
      ((drainFuel f next buf).1 ∉ (drainFuel f next buf).2.1.map Prod.fst) ∧
      (∀ k, next ≤ k → k < (drainFuel f next buf).1 → k ∈ buf.map Prod.fst)
  | 0, next, buf => by
    intro hlen hnodup
    have hbuf : buf = [] := List.length_eq_zero.mp (Nat.le_zero.mp hlen)
    subst hbuf
    refine ⟨by simp [drainFuel], by simp [drainFuel], ?_, by simp [drainFuel], ?_⟩
    · intro k
      simp [drainFuel]
    · intro k h1 h2
      simp only [drainFuel] at h2
      omega
  | f + 1, next, buf => by
    intro hlen hnodup
    cases hp : dictPop (α := α) next buf with
    | none =>
      have hmem := (dictPop_eq_none next buf).mp hp
      refine ⟨by simp [drainFuel, hp], by simp [drainFuel, hp, hnodup], ?_,
        by simp [drainFuel, hp, hmem], ?_⟩
      · intro k
        simp only [drainFuel, hp]
        constructor
        · intro hk
          exact ⟨hk, by omega⟩
        · intro hk
          exact hk.1
      · intro k h1 h2
        simp only [drainFuel, hp] at h2
        omega
    | some pr =>
      obtain ⟨v, buf'⟩ := pr
      have hlen' : buf'.length ≤ f := by
        have := dictPop_length next buf v buf' hp
        omega
      have hkeys : buf'.map Prod.fst = (buf.map Prod.fst).erase next :=
        dictPop_keys next buf v buf' hp
      have hnodup' : (buf'.map Prod.fst).Nodup := by
        rw [hkeys]
        exact hnodup.erase next
      have hnextmem : next ∈ buf.map Prod.fst := dictPop_mem hp
      obtain ⟨ih1, ih2, ih3, ih4, ih5⟩ :=
        drainFuel_spec f (next + 1) buf' hlen' hnodup'
      have hle : next + 1 ≤ (drainFuel f (next + 1) buf').1 :=
        drainFuel_next_le f (next + 1) buf'
      have hbufmem : ∀ k, k ∈ buf'.map Prod.fst ↔
          (k ≠ next ∧ k ∈ buf.map Prod.fst) := by
        intro k
        rw [hkeys]
        exact hnodup.mem_erase_iff
      refine ⟨?_, by simpa [drainFuel, hp] using ih2, ?_, ?_, ?_⟩
      · simp only [drainFuel, hp, List.map_cons, ih1]
        have hsub : (drainFuel f (next + 1) buf').1 - next
            = ((drainFuel f (next + 1) buf').1 - (next + 1)) + 1 := by omega
        rw [hsub, List.range'_succ]
      · intro k
        simp only [drainFuel, hp]
        rw [ih3 k, hbufmem k]
        constructor
        · rintro ⟨⟨h1, h2⟩, h3⟩
          exact ⟨h2, by omega⟩
        · rintro ⟨h2, h3⟩
          have h1 : k ≠ next := by omega
          exact ⟨⟨h1, h2⟩, by omega⟩
      · simpa [drainFuel, hp] using ih4
      · intro k h1 h2
        simp only [drainFuel, hp] at h2
        rcases Nat.eq_or_lt_of_le h1 with heq | hlt
        · rw [← heq]
          exact hnextmem
        · exact ((hbufmem k).mp (ih5 k hlt h2)).2

theorem drain_next_le (next : ℕ) (buf : List (ℕ × α)) :
    next ≤ (drain next buf).1 :=
  drainFuel_next_le buf.length next buf

theorem drain_spec (next : ℕ) (buf : List (ℕ × α))
    (hnodup : (buf.map Prod.fst).Nodup) :
    ((drain next buf).2.2.map Prod.fst
        = List.range' next ((drain next buf).1 - next)) ∧
    (((drain next buf).2.1.map Prod.fst).Nodup) ∧
    (∀ k, k ∈ (drain next buf).2.1.map Prod.fst ↔
        (k ∈ buf.map Prod.fst ∧ ¬(next ≤ k ∧ k < (drain next buf).1))) ∧
    ((drain next buf).1 ∉ (drain next buf).2.1.map Prod.fst) ∧
    (∀ k, next ≤ k → k < (drain next buf).1 → k ∈ buf.map Prod.fst) :=
  drainFuel_spec buf.length next buf (le_refl _) hnodup

/-! ### Invariants of the reorder stage

`RBInv accepted st out` is the §3 invariant of the specification, relative to
the multiset `accepted` of page numbers received so far: pages `1..next-1`
have been handed to the emitter in ascending order, the buffer holds exactly
the accepted pages `≥ next`, and `next` itself is never buffered. -/

def RBInv (accepted : List ℕ) (st : RBState α) (out : List (ℕ × α)) : Prop :=
  1 ≤ st.nextPage ∧
  out.map Prod.fst = List.range' 1 (st.nextPage - 1) ∧
  (st.buffer.map Prod.fst).Nodup ∧
  (∀ k, k ∈ st.buffer.map Prod.fst ↔ (k ∈ accepted ∧ st.nextPage ≤ k)) ∧
  (st.nextPage ∉ st.buffer.map Prod.fst) ∧
  (∀ m, 1 ≤ m → m < st.nextPage → m ∈ accepted)

theorem range'_one_glue {a b : ℕ} (h1 : 1 ≤ a) (h2 : a ≤ b) :
    List.range' 1 (a - 1) ++ List.range' a (b - a) = List.range' 1 (b - 1) := by
  have h := List.range'_append_1 1 (a - 1) (b - a)
  rw [show 1 + (a - 1) = a by omega, show b - a + (a - 1) = b - 1 by omega] at h
  exact h

theorem rbInit_inv : RBInv [] (rbInit (α := α)) [] := by
  refine ⟨le_refl 1, by simp [rbInit], by simp [rbInit], ?_, by simp [rbInit], ?_⟩
  · intro k
    simp [rbInit]
  · intro m h1 h2
    simp only [rbInit] at h2
    omega

theorem accept_next_le (st : RBState α) (p : ℕ) (v : α) :
    st.nextPage ≤ (accept st p v).1.nextPage :=
  drain_next_le st.nextPage (dictInsert p v st.buffer)

/-- The §3 invariant is preserved by `accept` on a fresh positive page
number. -/
theorem accept_inv {accepted : List ℕ} {st : RBState α} {out : List (ℕ × α)}
    (hinv : RBInv accepted st out) {p : ℕ} (v : α)
    (hp1 : 1 ≤ p) (hpn : p ∉ accepted) :
    RBInv (accepted ++ [p]) (accept st p v).1 (out ++ (accept st p v).2) := by
  obtain ⟨h1, h2, h3, h4, h5, h6⟩ := hinv
  have hnodup1 : ((dictInsert p v st.buffer).map Prod.fst).Nodup :=
    dictInsert_nodup h3
  obtain ⟨d1, d2, d3, d4, d5⟩ :=
    drain_spec st.nextPage (dictInsert p v st.buffer) hnodup1
  have hmono : st.nextPage ≤ (drain st.nextPage (dictInsert p v st.buffer)).1 :=
    drain_next_le _ _
  have hpge : st.nextPage ≤ p := by
    by_contra hlt
    exact hpn (h6 p hp1 (by omega))
  constructor
  · -- 1 ≤ next
    simpa [accept] using le_trans h1 hmono
  constructor
  · -- emitted pages are 1..next-1
    simp only [accept, List.map_append, h2, d1]
    exact range'_one_glue h1 hmono
  constructor
  · -- buffer keys distinct
    simpa [accept] using d2
  constructor
  · -- buffer holds exactly the accepted pages ≥ next
    intro k
    simp only [accept]
    rw [d3 k, dictInsert_mem p v st.buffer k]
    constructor
    · rintro ⟨hk1 | rfl, hk3⟩
      · rcases (h4 k).mp hk1 with ⟨hacc, hge⟩
        exact ⟨List.mem_append_left _ hacc, by omega⟩
      · refine ⟨List.mem_append_right _ (by simp), by omega⟩
    · rintro ⟨hacc, hge⟩
      rcases List.mem_append.mp hacc with hacc | hacc
      · refine ⟨Or.inl ((h4 k).mpr ⟨hacc, by omega⟩), by omega⟩
      · have hkp : k = p := by simpa using hacc
        exact ⟨Or.inr hkp, by omega⟩
  constructor
  · -- the new next is not buffered
    simpa [accept] using d4
  · -- all pages below the new next were accepted
    intro m hm1 hm2
    simp only [accept] at hm2
    by_cases hcase : m < st.nextPage
    · exact List.mem_append_left _ (h6 m hm1 hcase)
    · have hmem := d5 m (by omega) hm2
      rcases (dictInsert_mem p v st.buffer m).mp hmem with hmem | rfl
      · exact List.mem_append_left _ ((h4 m).mp hmem).1
      · exact List.mem_append_right _ (by simp)

/-- The §3 invariant is preserved by a whole run of distinct positive
arrivals. -/
theorem runRBFrom_inv :
    ∀ (arrivals : List (ℕ × α)) (accepted : List ℕ) (st : RBState α)
      (out : List (ℕ × α)),
      RBInv accepted st out →
      (∀ pair ∈ arrivals, 1 ≤ pair.1) →
      (accepted ++ arrivals.map Prod.fst).Nodup →
      RBInv (accepted ++ arrivals.map Prod.fst)
        (runRBFrom st out arrivals).1 (runRBFrom st out arrivals).2
  | [], accepted, st, out => by
    intro hinv _ _
    simpa [runRBFrom] using hinv
  | (p, v) :: rest, accepted, st, out => by
    intro hinv hpos hnodup
    have hp1 : 1 ≤ p := hpos (p, v) (by simp)
    have hpn : p ∉ accepted := by
      intro hmem
      have : ¬ List.Disjoint accepted (((p, v) :: rest).map Prod.fst) := by
        intro hdis
        exact hdis hmem (by simp)
      exact this (List.disjoint_of_nodup_append hnodup)
    have hstep := accept_inv hinv v hp1 hpn
    have hrec := runRBFrom_inv rest (accepted ++ [p]) (accept st p v).1
      (out ++ (accept st p v).2) hstep
      (fun pair hmem => hpos pair (by simp [hmem]))
      (by simpa using hnodup)
    simpa [runRBFrom] using hrec

theorem runRB_inv (arrivals : List (ℕ × α))
    (hpos : ∀ pair ∈ arrivals, 1 ≤ pair.1)
    (hnodup : (arrivals.map Prod.fst).Nodup) :
    RBInv (arrivals.map Prod.fst) (runRB arrivals).1 (runRB arrivals).2 := by
  have := runRBFrom_inv arrivals [] rbInit [] rbInit_inv hpos (by simpa using hnodup)
  simpa [runRB] using this

/-- The weak invariant: it constrains no relationship with the arrivals, so
it is preserved by `accept` on an arbitrary (even duplicate or stale) page
number. -/
def RBWf (st : RBState α) (out : List (ℕ × α)) : Prop :=
  1 ≤ st.nextPage ∧
  out.map Prod.fst = List.range' 1 (st.nextPage - 1) ∧
  (st.buffer.map Prod.fst).Nodup ∧
  st.nextPage ∉ st.buffer.map Prod.fst

theorem rbInit_wf : RBWf (rbInit (α := α)) [] := by
  refine ⟨le_refl 1, by simp [rbInit], by simp [rbInit], by simp [rbInit]⟩

theorem accept_wf {st : RBState α} {out : List (ℕ × α)}
    (hwf : RBWf st out) (p : ℕ) (v : α) :
    RBWf (accept st p v).1 (out ++ (accept st p v).2) := by
  obtain ⟨h1, h2, h3, h4⟩ := hwf
  have hnodup1 : ((dictInsert p v st.buffer).map Prod.fst).Nodup :=
    dictInsert_nodup h3
  obtain ⟨d1, d2, d3, d4, d5⟩ :=
    drain_spec st.nextPage (dictInsert p v st.buffer) hnodup1
  have hmono : st.nextPage ≤ (drain st.nextPage (dictInsert p v st.buffer)).1 :=
    drain_next_le _ _
  refine ⟨by simpa [accept] using le_trans h1 hmono, ?_,
    by simpa [accept] using d2, by simpa [accept] using d4⟩
  simp only [accept, List.map_append, h2, d1]
  exact range'_one_glue h1 hmono

theorem runRBFrom_wf :
    ∀ (arrivals : List (ℕ × α)) (st : RBState α) (out : List (ℕ × α)),
      RBWf st out → RBWf (runRBFrom st out arrivals).1 (runRBFrom st out arrivals).2
  | [], st, out => by
    intro hwf
    simpa [runRBFrom] using hwf
  | (p, v) :: rest, st, out => by
    intro hwf
    have hstep := accept_wf hwf p v
    have hrec := runRBFrom_wf rest (accept st p v).1 (out ++ (accept st p v).2) hstep
    simpa [runRBFrom] using hrec

theorem runRB_wf (arrivals : List (ℕ × α)) :
    RBWf (runRB arrivals).1 (runRB arrivals).2 :=
  runRBFrom_wf arrivals rbInit [] rbInit_wf

/-! ### Composition of runs -/

theorem runRBFrom_fst :
    ∀ (arrivals : List (ℕ × α)) (st : RBState α) (out1 out2 : List (ℕ × α)),
      (runRBFrom st out1 arrivals).1 = (runRBFrom st out2 arrivals).1
  | [], st, out1, out2 => rfl
  | (p, v) :: rest, st, out1, out2 => by
    simp only [runRBFrom]
    exact runRBFrom_fst rest _ _ _

theorem runRBFrom_snd :
    ∀ (arrivals : List (ℕ × α)) (st : RBState α) (out : List (ℕ × α)),
      (runRBFrom st out arrivals).2 = out ++ (runRBFrom st [] arrivals).2
  | [], st, out => by simp [runRBFrom]
  | (p, v) :: rest, st, out => by
    simp only [runRBFrom]
    rw [runRBFrom_snd rest _ (out ++ (accept st p v).2),
      runRBFrom_snd rest _ ([] ++ (accept st p v).2)]
    simp

theorem runRBFrom_append :
    ∀ (pre suff : List (ℕ × α)) (st : RBState α) (out : List (ℕ × α)),
      runRBFrom st out (pre ++ suff)
        = runRBFrom (runRBFrom st out pre).1 (runRBFrom st out pre).2 suff
  | [], suff, st, out => rfl
  | (p, v) :: rest, suff, st, out => by
    simp only [List.cons_append, runRBFrom]
    exact runRBFrom_append rest suff _ _

theorem runRBFrom_next_le :
    ∀ (arrivals : List (ℕ × α)) (st : RBState α) (out : List (ℕ × α)),
      st.nextPage ≤ (runRBFrom st out arrivals).1.nextPage
  | [], st, out => le_refl _
  | (p, v) :: rest, st, out => by
    simp only [runRBFrom]
    exact le_trans (accept_next_le st p v) (runRBFrom_next_le rest _ _)

/-! ### The conversion stage (`convert_worker`)

`convert_worker` (src lines 97-129) runs the opaque rasterizer on one page;
on success it enqueues `(page_num, images[0])`, and on an exception it only
logs and enqueues nothing: a failed page produces no result at all. -/

/-- Results enqueued by `convert_worker` for one page task. -/
def convertStep (rasterize : ℕ → Option α) (p : ℕ) : List (ℕ × α) :=
  match rasterize p with
  | some img => [(p, img)]
  | none => []

/-- All results delivered to the completion queue for pages `1..N`, in page
order (workers may deliver any permutation of this list). -/
def delivered (rasterize : ℕ → Option α) (N : ℕ) : List (ℕ × α) :=
  (List.range' 1 N).flatMap (convertStep rasterize)

theorem delivered_keys (rasterize : ℕ → Option α) (N : ℕ) :
    (delivered rasterize N).map Prod.fst
      = (List.range' 1 N).filter (fun p => (rasterize p).isSome) := by
  unfold delivered
  induction List.range' 1 N with
  | nil => simp
  | cons p rest ih =>
    cases hr : rasterize p with
    | none => simp [convertStep, hr, ih]
    | some img => simp [convertStep, hr, ih]

/-! ### Consequences: emission order -/

/-- When the arrivals are a permutation of `1..N`, the reorder stage hands
the emitter exactly the pages `1, ..., N` in ascending order. -/
theorem runRB_perm_out (N : ℕ) (arrivals : List (ℕ × α))
    (hperm : (arrivals.map Prod.fst).Perm (List.range' 1 N)) :
    (runRB arrivals).2.map Prod.fst = List.range' 1 N := by
  have hnodup : (arrivals.map Prod.fst).Nodup :=
    hperm.nodup_iff.mpr (List.nodup_range' 1 N)
  have hpos : ∀ pair ∈ arrivals, 1 ≤ pair.1 := by
    intro pair hmem
    have : pair.1 ∈ List.range' 1 N :=
      hperm.mem_iff.mp (List.mem_map_of_mem Prod.fst hmem)
    exact (List.mem_range'_1.mp this).1
  obtain ⟨h1, h2, h3, h4, h5, h6⟩ := runRB_inv arrivals hpos hnodup
  have hacc : ∀ k, k ∈ arrivals.map Prod.fst ↔ (1 ≤ k ∧ k < 1 + N) := by
    intro k
    rw [hperm.mem_iff, List.mem_range'_1]
  have hnext : (runRB arrivals).1.nextPage = N + 1 := by
    rcases Nat.lt_trichotomy (runRB arrivals).1.nextPage (N + 1) with hlt | heq | hgt
    · exfalso
      have hmem : (runRB arrivals).1.nextPage ∈ arrivals.map Prod.fst :=
        (hacc _).mpr ⟨h1, by omega⟩
      exact h5 ((h4 _).mpr ⟨hmem, le_refl _⟩)
    · exact heq
    · exfalso
      have hmem : N + 1 ∈ arrivals.map Prod.fst := h6 (N + 1) (by omega) hgt
      have := (hacc (N + 1)).mp hmem
      omega
  rw [h2, hnext]
  simp

/-- On a reachable reorder state, accepting a page lower than `next_page`
emits nothing: the drain loop cannot pop it. -/
theorem drainFuel_not_mem (f next : ℕ) (buf : List (ℕ × α))
    (h : next ∉ buf.map Prod.fst) :
    drainFuel f next buf = (next, buf, []) := by
  cases f with
  | zero => rfl
  | succ f => simp [drainFuel, (dictPop_eq_none next buf).mpr h]

section ClaimC1

/-- **C1.** For every total page count `N` and every order in which converted
page results arrive at the reorder stage of `print_worker`, provided a result
for every page `1..N` arrives (a permutation of `1..N`), the sequence of page
numbers handed to the emitter is exactly `1, 2, ..., N`: ascending, no gaps,
no duplicates. -/
theorem C1_emission_in_ascending_order (N : ℕ) (arrivals : List (ℕ × Unit))
    (hperm : (arrivals.map Prod.fst).Perm (List.range' 1 N)) :
    (runRB arrivals).2.map Prod.fst = List.range' 1 N :=
  runRB_perm_out N arrivals hperm

/-- Witness for C1: the spec scenario `totalPages = 5`, completion order
`[3, 1, 5, 2, 4]`, expected emission order `[1, 2, 3, 4, 5]`. -/
theorem C1_emission_in_ascending_order_witness :
    (runRB [(3, ()), (1, ()), (5, ()), (2, ()), (4, ())]).2.map Prod.fst
      = List.range' 1 5 :=
  C1_emission_in_ascending_order 5 [(3, ()), (1, ()), (5, ()), (2, ()), (4, ())]
    (by decide)

end ClaimC1

section ClaimC3

/-- **C3.** After every accept operation of a run on distinct positive page
numbers (as produced by `convert_worker`): every key of the pending buffer is
`≥ next_page`; `next_page` never decreases across operations; and pages are
handed to the emitter exactly once — the already-emitted output is never
re-emitted (it is a prefix of every later output) and the total emission has
no duplicates. -/
theorem C3_reorder_buffer_invariant (arrivals pre suff : List (ℕ × Unit))
    (hsplit : arrivals = pre ++ suff)
    (hpos : ∀ pair ∈ arrivals, 1 ≤ pair.1)
    (hnodup : (arrivals.map Prod.fst).Nodup) :
    (∀ k ∈ (runRB pre).1.buffer.map Prod.fst, (runRB pre).1.nextPage ≤ k) ∧
    (runRB pre).1.nextPage ≤ (runRB arrivals).1.nextPage ∧
    (∃ rest, (runRB arrivals).2 = (runRB pre).2 ++ rest) ∧
    ((runRB arrivals).2.map Prod.fst).Nodup := by
  subst hsplit
  have hposp : ∀ pair ∈ pre, 1 ≤ pair.1 := fun pair hmem =>
    hpos pair (List.mem_append_left _ hmem)
  have hnodupp : (pre.map Prod.fst).Nodup := by
    rw [List.map_append] at hnodup
    exact hnodup.of_append_left
  obtain ⟨h1, h2, h3, h4, h5, h6⟩ := runRB_inv pre hposp hnodupp
  have happ : runRB (pre ++ suff)
      = runRBFrom (runRB pre).1 (runRB pre).2 suff := by
    unfold runRB
    exact runRBFrom_append pre suff rbInit []
  refine ⟨?_, ?_, ?_, ?_⟩
  · intro k hk
    exact ((h4 k).mp hk).2
  · rw [happ]
    exact runRBFrom_next_le suff _ _
  · rw [happ, runRBFrom_snd]
    exact ⟨(runRBFrom (runRB pre).1 [] suff).2, rfl⟩
  · obtain ⟨w1, w2, w3, w4⟩ := runRB_wf (pre ++ suff)
    rw [w2]
    exact List.nodup_range' 1 _

/-- Witness for C3: arrivals `[2, 1]` split after the first accept. -/
theorem C3_reorder_buffer_invariant_witness :
    (∀ k ∈ (runRB [((2 : ℕ), ())]).1.buffer.map Prod.fst,
        (runRB [((2 : ℕ), ())]).1.nextPage ≤ k) ∧
    (runRB [((2 : ℕ), ())]).1.nextPage
      ≤ (runRB [(2, ()), (1, ())]).1.nextPage ∧
    (∃ rest, (runRB [(2, ()), (1, ())]).2 = (runRB [((2 : ℕ), ())]).2 ++ rest) ∧
    ((runRB [(2, ()), (1, ())]).2.map Prod.fst).Nodup :=
  C3_reorder_buffer_invariant [(2, ()), (1, ())] [(2, ())] [(1, ())]
    rfl (by decide) (by decide)

end ClaimC3

section ClaimC4

/-- **C4.** For any sequence of accepts whatsoever — including duplicates of
already-emitted or already-buffered page numbers — the emitter is never
invoked twice for the same page number; moreover accepting a page number
below `next_page` (already emitted) emits nothing at all. -/
theorem C4_duplicate_accept_no_reemission (arrivals : List (ℕ × Unit))
    (p : ℕ) (v : Unit) :
    ((runRB arrivals).2.map Prod.fst).Nodup ∧
    (p < (runRB arrivals).1.nextPage → (accept (runRB arrivals).1 p v).2 = []) := by
  obtain ⟨w1, w2, w3, w4⟩ := runRB_wf arrivals
  constructor
  · rw [w2]
    exact List.nodup_range' 1 _
  · intro hlt
    have hmem : (runRB arrivals).1.nextPage
        ∉ (dictInsert p v (runRB arrivals).1.buffer).map Prod.fst := by
      rw [dictInsert_mem]
      rintro (hk | hk)
      · exact w4 hk
      · omega
    simp only [accept, drain, drainFuel_not_mem _ _ _ hmem]

/-- Witness for C4: after the run `[1]`, page 1 has been emitted
(`next_page = 2`); re-accepting page 1 emits nothing. -/
theorem C4_duplicate_accept_no_reemission_witness :
    ((runRB [((1 : ℕ), ())]).2.map Prod.fst).Nodup ∧
    (accept (runRB [((1 : ℕ), ())]).1 1 ()).2 = [] :=
  ⟨(C4_duplicate_accept_no_reemission [(1, ())] 1 ()).1,
    (C4_duplicate_accept_no_reemission [(1, ())] 1 ()).2 (by decide)⟩

end ClaimC4

section ClaimC2

/-- A conversion outcome where exactly page 7 of 10 fails. -/
def rasterFail7 : ℕ → Option Unit := fun p => if p = 7 then none else some ()

/-- **C2, counterexample.** With pages `1..10` and only page 7 failing to
convert, `convert_worker` enqueues no result for page 7 at all, and (contrary
to the claim) pages 8-10 are never handed to the emitter: the emitted pages
are exactly `[1, 2, 3, 4, 5, 6]` while pages 8-10 stay in the buffer; no
per-page failure record exists anywhere in the pipeline state. -/
theorem C2_counterexample :
    convertStep rasterFail7 7 = [] ∧
    (runRB (delivered rasterFail7 10)).2.map Prod.fst = [1, 2, 3, 4, 5, 6] ∧
    8 ∉ (runRB (delivered rasterFail7 10)).2.map Prod.fst ∧
    (runRB (delivered rasterFail7 10)).1.buffer.map Prod.fst = [8, 9, 10] := by
  refine ⟨by decide, by decide, by decide, by decide⟩

/-- When exactly one page `fp` of `1..N` fails to convert, the reorder stage
emits exactly `1..fp-1` and buffers `fp+1..N` forever. -/
theorem runRB_one_missing (N fp : ℕ)
    (rasterize : ℕ → Option Unit) (arrivals : List (ℕ × Unit))
    (hf1 : 1 ≤ fp) (hfN : fp ≤ N)
    (hrast : ∀ p ∈ List.range' 1 N, ((rasterize p).isSome ↔ p ≠ fp))
    (hperm : (arrivals.map Prod.fst).Perm ((delivered rasterize N).map Prod.fst)) :
    rasterize fp = none ∧
    (runRB arrivals).2.map Prod.fst = List.range' 1 (fp - 1) ∧
    (∀ k, k ∈ (runRB arrivals).1.buffer.map Prod.fst ↔ (fp + 1 ≤ k ∧ k ≤ N)) := by
  have hfmem : fp ∈ List.range' 1 N := List.mem_range'_1.mpr ⟨hf1, by omega⟩
  have hfnone : rasterize fp = none := by
    have hiff := hrast fp hfmem
    cases hr : rasterize fp with
    | none => rfl
    | some u => exact absurd (hiff.mp (by rw [hr]; rfl)) (by simp)
  have hacc : ∀ k, k ∈ arrivals.map Prod.fst ↔
      (1 ≤ k ∧ k < 1 + N ∧ k ≠ fp) := by
    intro k
    rw [hperm.mem_iff, delivered_keys, List.mem_filter]
    constructor
    · rintro ⟨hk1, hk2⟩
      obtain ⟨ha, hb⟩ := List.mem_range'_1.mp hk1
      exact ⟨ha, hb, (hrast k hk1).mp hk2⟩
    · rintro ⟨hk1, hk2, hk3⟩
      have hmem : k ∈ List.range' 1 N := List.mem_range'_1.mpr ⟨hk1, hk2⟩
      exact ⟨hmem, (hrast k hmem).mpr hk3⟩
  have hnodup : (arrivals.map Prod.fst).Nodup := by
    rw [hperm.nodup_iff, delivered_keys]
    exact (List.nodup_range' 1 N).filter _
  have hpos : ∀ pair ∈ arrivals, 1 ≤ pair.1 := by
    intro pair hmem
    exact ((hacc pair.1).mp (List.mem_map_of_mem Prod.fst hmem)).1
  obtain ⟨h1, h2, h3, h4, h5, h6⟩ := runRB_inv arrivals hpos hnodup
  have hnext : (runRB arrivals).1.nextPage = fp := by
    rcases Nat.lt_trichotomy (runRB arrivals).1.nextPage fp with hlt | heq | hgt
    · exfalso
      have hmem : (runRB arrivals).1.nextPage ∈ arrivals.map Prod.fst :=
        (hacc _).mpr ⟨h1, by omega, by omega⟩
      exact h5 ((h4 _).mpr ⟨hmem, le_refl _⟩)
    · exact heq
    · exfalso
      have hmem : fp ∈ arrivals.map Prod.fst := h6 fp hf1 hgt
      exact ((hacc fp).mp hmem).2.2 rfl
  refine ⟨hfnone, by rw [h2, hnext], ?_⟩
  intro k
  rw [h4 k, hacc k, hnext]
  omega

/-- **C2, amended.** If the conversion of exactly one page `fp` fails while
every other page converts successfully, then no result for `fp` is ever
enqueued, only pages `1..fp-1` are handed to the emitter (in order), and the
pages `fp+1..N` remain in the pending buffer forever, never emitted; no
per-page failure list is produced anywhere. -/
theorem C2_amended_failed_page_blocks_successors (N fp : ℕ)
    (rasterize : ℕ → Option Unit) (arrivals : List (ℕ × Unit))
    (hf1 : 1 ≤ fp) (hfN : fp ≤ N)
    (hrast : ∀ p ∈ List.range' 1 N, ((rasterize p).isSome ↔ p ≠ fp))
    (hperm : (arrivals.map Prod.fst).Perm ((delivered rasterize N).map Prod.fst)) :
    convertStep rasterize fp = [] ∧
    (runRB arrivals).2.map Prod.fst = List.range' 1 (fp - 1) ∧
    (∀ k, k ∈ (runRB arrivals).1.buffer.map Prod.fst ↔ (fp + 1 ≤ k ∧ k ≤ N)) := by
  obtain ⟨hnone, hout, hbuf⟩ :=
    runRB_one_missing N fp rasterize arrivals hf1 hfN hrast hperm
  exact ⟨by simp [convertStep, hnone], hout, hbuf⟩

/-- Witness for the amended C2: `N = 10`, `f = 7`, in-order arrivals. -/
theorem C2_amended_failed_page_blocks_successors_witness :
    convertStep rasterFail7 7 = [] ∧
    (runRB (delivered rasterFail7 10)).2.map Prod.fst = List.range' 1 6 ∧
    (∀ k, k ∈ (runRB (delivered rasterFail7 10)).1.buffer.map Prod.fst ↔
        (8 ≤ k ∧ k ≤ 10)) :=
  C2_amended_failed_page_blocks_successors 10 7 rasterFail7
    (delivered rasterFail7 10) (by decide) (by decide) (by decide)
    (List.Perm.refl _)

end ClaimC2

/-! ### The device emission routine `_print_image_working`

`_print_image_working` (src lines 166-225) drives the Windows GDI device:
on page 1 it creates and binds a printer DC and calls `StartDoc` — all
*outside* the `try` block — then, inside the `try`, brackets the page with
`StartPage`/`EndPage` around the `dib.draw` call, and on the last page calls
`EndDoc` and `DeleteDC`.  The `except` clause attempts `AbortDoc` and
`DeleteDC` (its own failures swallowed) and re-raises.

The device is modelled by an oracle `f : DevCall → Bool` telling which call
kinds raise.  A DC whose binding or `StartDoc` failed is recorded as not
`ready`; page-level calls on an unready DC fail regardless of the oracle
(GDI rejects page operations on a DC with no open document).  The trace
records each device call the routine issued, paired with whether it
succeeded. -/

/-- The GDI device calls issued by the printer (spec §6 vocabulary:
`CreatePrinterDC` = openDeviceSession, `StartDoc` = beginJob, `StartPage` =
beginPage, `draw` = drawImage, `EndPage` = endPage, `EndDoc` = endJob,
`AbortDoc` = abortJob, `DeleteDC` = release of the device handle). -/
inductive DevCall where
  | createPrinterDC
  | startDoc
  | startPage
  | draw
  | endPage
  | endDoc
  | deleteDC
  | abortDoc
deriving DecidableEq, Repr

/-- The printer device context held in `self.printer_dc`; `ready` records
that binding and `StartDoc` both succeeded. -/
structure DC where
  ready : Bool
deriving DecidableEq, Repr

/-- Outcome of one `_print_image_working` call: the device calls issued (with
success flags), whether an exception propagated to the caller, and the value
of `self.printer_dc` afterwards. -/
structure EmitResult where
  trace : List (DevCall × Bool)
  err : Bool
  dc : Option DC
deriving DecidableEq, Repr

/-- The `except` clause of `_print_image_working` (src lines 215-225): if a
DC is held, try `AbortDoc` then `DeleteDC` then `self.printer_dc = None`,
swallowing failures of the cleanup itself (a failing cleanup call skips the
rest, leaving the DC assigned), then re-raise. -/
def cleanupAndRaise (f : DevCall → Bool) (dc : Option DC)
    (tr : List (DevCall × Bool)) : EmitResult :=
  match dc with
  | none => ⟨tr, true, none⟩
  | some d =>
    if f .abortDoc then ⟨tr ++ [(.abortDoc, false)], true, some d⟩
    else if f .deleteDC then
      ⟨tr ++ [(.abortDoc, true), (.deleteDC, false)], true, some d⟩
    else ⟨tr ++ [(.abortDoc, true), (.deleteDC, true)], true, none⟩

/-- The `try` block of `_print_image_working` (src lines 180-214), for a
held DC `d`: `StartPage`, scale computation, `dib.draw`, `EndPage`, and on
`page_num == total` also `EndDoc` and `DeleteDC` with `printer_dc = None`.
A page-level call fails when the oracle says so or when the DC is not ready
(binding or `StartDoc` failed earlier); any failure jumps to
`cleanupAndRaise`. -/
def tryBody (f : DevCall → Bool) (pageNum total : ℕ) (d : DC)
    (pre : List (DevCall × Bool)) : EmitResult :=
  if f .startPage || !d.ready then
    cleanupAndRaise f (some d) (pre ++ [(.startPage, false)])
  else if f .draw || !d.ready then
    cleanupAndRaise f (some d) (pre ++ [(.startPage, true), (.draw, false)])
  else if f .endPage || !d.ready then
    cleanupAndRaise f (some d)
      (pre ++ [(.startPage, true), (.draw, true), (.endPage, false)])
  else if pageNum = total then
    if f .endDoc || !d.ready then
      cleanupAndRaise f (some d)
        (pre ++ [(.startPage, true), (.draw, true), (.endPage, true),
          (.endDoc, false)])
    else if f .deleteDC then
      cleanupAndRaise f (some d)
        (pre ++ [(.startPage, true), (.draw, true), (.endPage, true),
          (.endDoc, true), (.deleteDC, false)])
    else
      ⟨pre ++ [(.startPage, true), (.draw, true), (.endPage, true),
        (.endDoc, true), (.deleteDC, true)], false, none⟩
  else
    ⟨pre ++ [(.startPage, true), (.draw, true), (.endPage, true)],
      false, some d⟩

/-- `_print_image_working` for one page.  On `page_num == 1` the DC creation,
binding and `StartDoc` happen before the `try` block, so their failures
propagate with no cleanup at all (the freshly created, unready DC stays in
`self.printer_dc`).  On a later page with `self.printer_dc` equal to `None`
(after an earlier abort), attribute access raises before any device call and
the `except` clause finds no DC to close. -/
def print_image_working (f : DevCall → Bool) (pageNum total : ℕ)
    (dc0 : Option DC) : EmitResult :=
  if pageNum = 1 then
    if f .createPrinterDC then
      ⟨[(.createPrinterDC, false)], true, some ⟨false⟩⟩
    else if f .startDoc then
      ⟨[(.createPrinterDC, true), (.startDoc, false)], true, some ⟨false⟩⟩
    else
      tryBody f pageNum total ⟨true⟩
        [(.createPrinterDC, true), (.startDoc, true)]
  else
    match dc0 with
    | none => ⟨[], true, none⟩
    | some d => tryBody f pageNum total d []

/-- The device oracle of an error-free device. -/
def noFail : DevCall → Bool := fun _ => false

/-- A device oracle on which exactly one call kind raises. -/
def failOnly (c0 : DevCall) : DevCall → Bool := fun c => c == c0

/-! ### The emission loop and the coordinator `print_pdf` -/

/-- One iteration of the emission part of `print_worker`'s drain loop
(src lines 144-162): call `_print_image_working`, increment the `printed`
counter on success, and *swallow* any exception (log and continue with
`next_page += 1`). -/
def emitStep (f : DevCall → Bool) (total : ℕ)
    (acc : List (DevCall × Bool) × Option DC × ℕ) (p : ℕ) :
    List (DevCall × Bool) × Option DC × ℕ :=
  let r := print_image_working f p total acc.2.1
  (acc.1 ++ r.trace, r.dc, acc.2.2 + if r.err then 0 else 1)

/-- The emission loop over the in-order pages released by the reorder
stage: accumulated device trace, current DC, `printed` counter. -/
def emitFold (f : DevCall → Bool) (total : ℕ) (pages : List ℕ) :
    List (DevCall × Bool) × Option DC × ℕ :=
  pages.foldl (emitStep f total) ([], none, 0)

/-- The end of `print_pdf` (src lines 276-283): after both queues drain, if a
DC is still held, call `EndDoc` then `DeleteDC` (failures swallowed; a failed
`EndDoc` skips `DeleteDC`) and drop the handle. -/
def finalClose (f : DevCall → Bool) (tr : List (DevCall × Bool))
    (dc : Option DC) : List (DevCall × Bool) :=
  match dc with
  | none => tr
  | some d =>
    if f .endDoc || !d.ready then tr ++ [(.endDoc, false)]
    else if f .deleteDC then tr ++ [(.endDoc, true), (.deleteDC, false)]
    else tr ++ [(.endDoc, true), (.deleteDC, true)]

/-- The completion report printed by `print_pdf`
(`COMPLETED: printed/total`), together with the full device trace. -/
structure JobReport where
  devTrace : List (DevCall × Bool)
  printed : ℕ
  total : ℕ
deriving DecidableEq, Repr

/-- Outcome of a `print_pdf` call: `FileNotFoundError` raised, early return
when the page count cannot be read, or a normal run to completion.  Device
errors never produce a distinct outcome — they are swallowed inside the
workers — so there is no failure constructor for them. -/
inductive PrintPdfResult where
  | notFound
  | noPageCount
  | completed (report : JobReport)
deriving DecidableEq, Repr

/-- `print_pdf` (src lines 227-291): check the file, read the page count,
run the convert/reorder/emit pipeline over the delivered results (`arrivals`
is the order in which converted pages reach the completion queue), close any
still-open DC, and report `printed/total`. -/
def printPdf (fileExists : Bool) (pageCount : Option ℕ) (f : DevCall → Bool)
    (arrivals : List (ℕ × Unit)) : PrintPdfResult :=
  if !fileExists then .notFound
  else
    match pageCount with
    | none => .noPageCount
    | some N =>
      let rb := runRB arrivals
      let em := emitFold f N (rb.2.map Prod.fst)
      .completed ⟨finalClose f em.1 em.2.1, em.2.2, N⟩

/-- A rasterizer on which every page converts. -/
def rasterAll : ℕ → Option Unit := fun _ => some ()

/-- The device trace of a completed `print_pdf` run. -/
def devTraceOf : PrintPdfResult → List (DevCall × Bool)
  | .completed report => report.devTrace
  | _ => []

example : delivered rasterAll 1 = [(1, ())] := by decide

section ClaimC8

/-- **C8.** For a document with `totalPages = 1` whose single page converts
successfully, the device observes exactly one `StartDoc` (beginJob), then
exactly one `StartPage` (beginPage), one `draw`, one `EndPage` (endPage),
and then exactly one `EndDoc` (endJob), in that order (preceded by the DC
binding and followed by the handle release). -/
theorem C8_single_page_device_call_order :
    devTraceOf (printPdf true (some 1) noFail (delivered rasterAll 1))
      = [(.createPrinterDC, true), (.startDoc, true), (.startPage, true),
         (.draw, true), (.endPage, true), (.endDoc, true), (.deleteDC, true)] ∧
    ((devTraceOf (printPdf true (some 1) noFail
        (delivered rasterAll 1))).map Prod.fst).filter
        (fun c => decide (c ∈ [DevCall.startDoc, DevCall.startPage,
          DevCall.draw, DevCall.endPage, DevCall.endDoc]))
      = [DevCall.startDoc, DevCall.startPage, DevCall.draw,
         DevCall.endPage, DevCall.endDoc] ∧
    (∀ c ∈ [DevCall.startDoc, DevCall.startPage, DevCall.draw,
        DevCall.endPage, DevCall.endDoc],
      ((devTraceOf (printPdf true (some 1) noFail
          (delivered rasterAll 1))).map Prod.fst).count c = 1) := by
  refine ⟨by decide, by decide, by decide⟩

end ClaimC8

section ClaimC5

/-- **C5, counterexample.**  (a) A `StartDoc` failure on page 1 is an error
exit of the emission routine on which the cleanup does not run at all: no
`AbortDoc`, no release of the handle (the `if page_num == 1` block sits
outside the `try`).  (b) When `DeleteDC` fails after a successful `EndDoc`
on the last page, the `except` clause calls `AbortDoc` on the same session,
so the session receives both `EndDoc` and `AbortDoc`. -/
theorem C5_counterexample :
    print_image_working (failOnly .startDoc) 1 1 none
      = ⟨[(.createPrinterDC, true), (.startDoc, false)], true, some ⟨false⟩⟩ ∧
    DevCall.abortDoc ∉
      (print_image_working (failOnly .startDoc) 1 1 none).trace.map Prod.fst ∧
    DevCall.deleteDC ∉
      (print_image_working (failOnly .startDoc) 1 1 none).trace.map Prod.fst ∧
    (DevCall.endDoc, true) ∈
      (print_image_working (failOnly .deleteDC) 1 1 none).trace ∧
    (DevCall.abortDoc, true) ∈
      (print_image_working (failOnly .deleteDC) 1 1 none).trace := by
  refine ⟨by decide, by decide, by decide, by decide, by decide⟩

theorem cleanupAndRaise_ok {f : DevCall → Bool} (d : DC)
    (tr : List (DevCall × Bool))
    (h1 : f .abortDoc = false) (h2 : f .deleteDC = false) :
    cleanupAndRaise f (some d) tr
      = ⟨tr ++ [(.abortDoc, true), (.deleteDC, true)], true, none⟩ := by
  simp [cleanupAndRaise, h1, h2]

theorem cleanupAndRaise_endDoc {f : DevCall → Bool} {d : DC}
    {tr : List (DevCall × Bool)}
    (h : (DevCall.endDoc, true) ∈ (cleanupAndRaise f (some d) tr).trace) :
    (DevCall.endDoc, true) ∈ tr := by
  unfold cleanupAndRaise at h
  split_ifs at h <;> simp_all

theorem tryBody_cleanup {f : DevCall → Bool} {p t : ℕ} {d : DC}
    {pre : List (DevCall × Bool)}
    (h1 : f .abortDoc = false) (h2 : f .deleteDC = false)
    (herr : (tryBody f p t d pre).err = true) :
    (∃ pr, (tryBody f p t d pre).trace
        = pr ++ [(.abortDoc, true), (.deleteDC, true)]) ∧
    (tryBody f p t d pre).dc = none := by
  unfold tryBody at herr ⊢
  split_ifs at herr ⊢ with hsp hdr hep hpt hed hdd
  · rw [cleanupAndRaise_ok d _ h1 h2]
    exact ⟨⟨_, rfl⟩, rfl⟩
  · rw [cleanupAndRaise_ok d _ h1 h2]
    exact ⟨⟨_, rfl⟩, rfl⟩
  · rw [cleanupAndRaise_ok d _ h1 h2]
    exact ⟨⟨_, rfl⟩, rfl⟩
  · rw [cleanupAndRaise_ok d _ h1 h2]
    exact ⟨⟨_, rfl⟩, rfl⟩
  · exact absurd hdd (by simp [h2])

theorem tryBody_both {f : DevCall → Bool} {p t : ℕ} {d : DC}
    {pre : List (DevCall × Bool)}
    (hpre1 : (DevCall.endDoc, true) ∉ pre)
    (hpre2 : DevCall.abortDoc ∉ pre.map Prod.fst)
    (hend : (DevCall.endDoc, true) ∈ (tryBody f p t d pre).trace)
    (habort : DevCall.abortDoc ∈ (tryBody f p t d pre).trace.map Prod.fst) :
    f .deleteDC = true := by
  unfold tryBody at hend habort
  split_ifs at hend habort with hsp hdr hep hpt hed hdd
  · rcases List.mem_append.mp (cleanupAndRaise_endDoc hend) with h | h
    · exact absurd h hpre1
    · simp at h
  · rcases List.mem_append.mp (cleanupAndRaise_endDoc hend) with h | h
    · exact absurd h hpre1
    · simp at h
  · rcases List.mem_append.mp (cleanupAndRaise_endDoc hend) with h | h
    · exact absurd h hpre1
    · simp at h
  · rcases List.mem_append.mp (cleanupAndRaise_endDoc hend) with h | h
    · exact absurd h hpre1
    · simp at h
  · exact hdd
  · simp only [List.map_append, List.mem_append] at habort
    rcases habort with h | h
    · exact absurd h hpre2
    · simp at h
  · simp only [List.map_append, List.mem_append] at habort
    rcases habort with h | h
    · exact absurd h hpre2
    · simp at h

/-- **C5, amended.**  For the emission routine `_print_image_working`:
(1) if a device call fails inside the bracketed `try` section (from
`StartPage` on) and the cleanup calls themselves succeed, the routine issues
`AbortDoc` and `DeleteDC` as its final device calls and clears the handle
before the error propagates; but (2) a failure while opening the session
(`CreatePrinterDC`, and likewise `StartDoc`) on page 1 propagates with no
cleanup at all, leaving an unready DC assigned; and (3) a session receives
both a successful `EndDoc` and an `AbortDoc` only when `DeleteDC` failed
after the successful `EndDoc`. -/
theorem C5_amended_error_cleanup (f : DevCall → Bool) (pageNum total : ℕ)
    (dc0 : Option DC) :
    (f .abortDoc = false → f .deleteDC = false →
      (print_image_working f pageNum total dc0).err = true →
      DevCall.startPage ∈
        (print_image_working f pageNum total dc0).trace.map Prod.fst →
      (∃ pr, (print_image_working f pageNum total dc0).trace
          = pr ++ [(.abortDoc, true), (.deleteDC, true)]) ∧
      (print_image_working f pageNum total dc0).dc = none) ∧
    (f .createPrinterDC = true →
      print_image_working f 1 total dc0
        = ⟨[(.createPrinterDC, false)], true, some ⟨false⟩⟩) ∧
    ((DevCall.endDoc, true) ∈ (print_image_working f pageNum total dc0).trace →
      DevCall.abortDoc ∈
        (print_image_working f pageNum total dc0).trace.map Prod.fst →
      f .deleteDC = true) := by
  refine ⟨?_, ?_, ?_⟩
  · intro h1 h2 herr hsp
    unfold print_image_working at herr hsp ⊢
    split_ifs at herr hsp ⊢ with hpg hcpd hsd
    · simp at hsp
    · simp at hsp
    · exact tryBody_cleanup h1 h2 herr
    · cases dc0 with
      | none => simp at hsp
      | some d => exact tryBody_cleanup h1 h2 herr
  · intro hcpd
    simp [print_image_working, hcpd]
  · intro hend habort
    unfold print_image_working at hend habort
    split_ifs at hend habort with hpg hcpd hsd
    · simp at hend
    · simp at hend
    · exact tryBody_both (by decide) (by decide) hend habort
    · cases dc0 with
      | none => simp at hend
      | some d => exact tryBody_both (by decide) (by decide) hend habort

/-- Witness for the amended C5: a `draw` failure triggers abort-and-release;
a `CreatePrinterDC` failure propagates bare; the both-closes case indeed has
a failing `DeleteDC`. -/
theorem C5_amended_error_cleanup_witness :
    ((∃ pr, (print_image_working (failOnly .draw) 1 1 none).trace
        = pr ++ [(.abortDoc, true), (.deleteDC, true)]) ∧
      (print_image_working (failOnly .draw) 1 1 none).dc = none) ∧
    print_image_working (failOnly .createPrinterDC) 1 1 none
      = ⟨[(.createPrinterDC, false)], true, some ⟨false⟩⟩ ∧
    failOnly .deleteDC .deleteDC = true := by
  refine ⟨(C5_amended_error_cleanup (failOnly .draw) 1 1 none).1
      (by decide) (by decide) (by decide) (by decide),
    (C5_amended_error_cleanup (failOnly .createPrinterDC) 1 1 none).2.1
      (by decide),
    (C5_amended_error_cleanup (failOnly .deleteDC) 1 1 none).2.2
      (by decide) (by decide)⟩

end ClaimC5

/-! ### Emission runs on an error-free device -/

theorem piw_ok_first_last (dc : Option DC) :
    print_image_working noFail 1 1 dc
      = ⟨[(.createPrinterDC, true), (.startDoc, true), (.startPage, true),
          (.draw, true), (.endPage, true), (.endDoc, true), (.deleteDC, true)],
        false, none⟩ := by
  simp [print_image_working, tryBody, noFail]

theorem piw_ok_first (t : ℕ) (dc : Option DC) (ht : t ≠ 1) :
    print_image_working noFail 1 t dc
      = ⟨[(.createPrinterDC, true), (.startDoc, true), (.startPage, true),
          (.draw, true), (.endPage, true)], false, some ⟨true⟩⟩ := by
  simp [print_image_working, tryBody, noFail, Ne.symm ht]

theorem piw_ok_mid (a t : ℕ) (ha : a ≠ 1) (hat : a ≠ t) (d : DC)
    (hd : d.ready = true) :
    print_image_working noFail a t (some d)
      = ⟨[(.startPage, true), (.draw, true), (.endPage, true)],
        false, some d⟩ := by
  simp [print_image_working, tryBody, noFail, ha, hat, hd]

theorem piw_ok_last (a : ℕ) (ha : a ≠ 1) (d : DC) (hd : d.ready = true) :
    print_image_working noFail a a (some d)
      = ⟨[(.startPage, true), (.draw, true), (.endPage, true),
          (.endDoc, true), (.deleteDC, true)], false, none⟩ := by
  simp [print_image_working, tryBody, noFail, ha, hd]

/-- An error-free run over middle pages (neither the first page of the job
nor the last page of the document) keeps the DC open and draws each page. -/
theorem emit_mid :
    ∀ (k a t c : ℕ) (tr : List (DevCall × Bool)),
      2 ≤ a → a + k ≤ t →
      ∃ X, (List.range' a k).foldl (emitStep noFail t) (tr, some ⟨true⟩, c)
          = (tr ++ X, some ⟨true⟩, c + k)
  | 0, a, t, c, tr => by
    intro h2 hle
    exact ⟨[], by simp⟩
  | k + 1, a, t, c, tr => by
    intro h2 hle
    rw [List.range'_succ]
    have hstep : emitStep noFail t (tr, some ⟨true⟩, c) a
        = (tr ++ [(.startPage, true), (.draw, true), (.endPage, true)],
          some ⟨true⟩, c + 1) := by
      simp [emitStep, piw_ok_mid a t (by omega) (by omega) ⟨true⟩ rfl]
    rw [List.foldl_cons, hstep]
    obtain ⟨X, hX⟩ := emit_mid k (a + 1) t (c + 1)
      (tr ++ [(.startPage, true), (.draw, true), (.endPage, true)])
      (by omega) (by omega)
    refine ⟨[(.startPage, true), (.draw, true), (.endPage, true)] ++ X, ?_⟩
    rw [hX, List.append_assoc, show c + 1 + k = c + (k + 1) by omega]

/-- An error-free full run over pages `1..N` closes the document inside the
emitter and reports all `N` pages printed. -/
theorem emit_all_ok (N : ℕ) (hN : 1 ≤ N) :
    ∃ X, emitFold noFail N (List.range' 1 N) = (X, none, N) ∧
      (DevCall.endDoc, true) ∈ X := by
  rcases eq_or_lt_of_le hN with h1 | h2
  · rw [← h1]
    exact ⟨[(.createPrinterDC, true), (.startDoc, true), (.startPage, true),
      (.draw, true), (.endPage, true), (.endDoc, true), (.deleteDC, true)],
      by decide, by decide⟩
  · have e1 : List.range' 1 N = 1 :: List.range' 2 (N - 1) := by
      have h := List.range'_succ 1 (N - 1) 1
      rw [show N - 1 + 1 = N by omega] at h
      simpa using h
    have e2 : List.range' 2 (N - 1) = List.range' 2 (N - 2) ++ [N] := by
      have h := List.range'_1_concat 2 (N - 2)
      rw [show N - 2 + 1 = N - 1 by omega, show 2 + (N - 2) = N by omega] at h
      exact h
    have hstep : emitStep noFail N ([], none, 0) 1
        = ([(.createPrinterDC, true), (.startDoc, true), (.startPage, true),
            (.draw, true), (.endPage, true)], some ⟨true⟩, 1) := by
      simp [emitStep, piw_ok_first N none (by omega)]
    obtain ⟨X, hX⟩ := emit_mid (N - 2) 2 N 1
      [(.createPrinterDC, true), (.startDoc, true), (.startPage, true),
        (.draw, true), (.endPage, true)] (le_refl 2) (by omega)
    have hstep2 : emitStep noFail N
        ([(.createPrinterDC, true), (.startDoc, true), (.startPage, true),
          (.draw, true), (.endPage, true)] ++ X, some ⟨true⟩, 1 + (N - 2)) N
        = (([(.createPrinterDC, true), (.startDoc, true), (.startPage, true),
            (.draw, true), (.endPage, true)] ++ X)
            ++ [(.startPage, true), (.draw, true), (.endPage, true),
              (.endDoc, true), (.deleteDC, true)], none, 1 + (N - 2) + 1) := by
      simp [emitStep, piw_ok_last N (by omega) ⟨true⟩ rfl]
    refine ⟨[(.createPrinterDC, true), (.startDoc, true), (.startPage, true),
        (.draw, true), (.endPage, true)] ++ X
        ++ [(.startPage, true), (.draw, true), (.endPage, true),
          (.endDoc, true), (.deleteDC, true)], ?_, by simp⟩
    rw [emitFold, e1, List.foldl_cons, hstep, e2, List.foldl_append, hX,
      List.foldl_cons, List.foldl_nil, hstep2,
      show 1 + (N - 2) + 1 = N by omega, List.append_assoc]

/-- An error-free run over the prefix `1..fp-1` (with `2 ≤ fp ≤ N`) leaves
the DC open with `fp - 1` pages printed. -/
theorem emit_prefix_ok (N fp : ℕ) (h2 : 2 ≤ fp) (hfN : fp ≤ N) :
    ∃ X, emitFold noFail N (List.range' 1 (fp - 1))
      = (X, some ⟨true⟩, fp - 1) := by
  have e1 : List.range' 1 (fp - 1) = 1 :: List.range' 2 (fp - 2) := by
    have h := List.range'_succ 1 (fp - 2) 1
    rw [show fp - 2 + 1 = fp - 1 by omega] at h
    simpa using h
  have hstep : emitStep noFail N ([], none, 0) 1
      = ([(.createPrinterDC, true), (.startDoc, true), (.startPage, true),
          (.draw, true), (.endPage, true)], some ⟨true⟩, 1) := by
    simp [emitStep, piw_ok_first N none (by omega)]
  obtain ⟨X, hX⟩ := emit_mid (fp - 2) 2 N 1
    [(.createPrinterDC, true), (.startDoc, true), (.startPage, true),
      (.draw, true), (.endPage, true)] (le_refl 2) (by omega)
  refine ⟨[(.createPrinterDC, true), (.startDoc, true), (.startPage, true),
      (.draw, true), (.endPage, true)] ++ X, ?_⟩
  rw [emitFold, e1, List.foldl_cons, hstep, hX,
    show 1 + (fp - 2) = fp - 1 by omega]

theorem finalClose_none (f : DevCall → Bool) (tr : List (DevCall × Bool)) :
    finalClose f tr none = tr := rfl

theorem finalClose_ready_ok (tr : List (DevCall × Bool)) :
    finalClose noFail tr (some ⟨true⟩)
      = tr ++ [(.endDoc, true), (.deleteDC, true)] := by
  simp [finalClose, noFail]

theorem finalClose_unready (f : DevCall → Bool) (tr : List (DevCall × Bool)) :
    finalClose f tr (some ⟨false⟩) = tr ++ [(.endDoc, false)] := by
  simp [finalClose]

theorem printPdf_completed (pageCount : ℕ) (f : DevCall → Bool)
    (arrivals : List (ℕ × Unit)) :
    printPdf true (some pageCount) f arrivals
      = .completed ⟨finalClose f
          (emitFold f pageCount ((runRB arrivals).2.map Prod.fst)).1
          (emitFold f pageCount ((runRB arrivals).2.map Prod.fst)).2.1,
        (emitFold f pageCount ((runRB arrivals).2.map Prod.fst)).2.2,
        pageCount⟩ := rfl

section ClaimC6

/-- A conversion outcome where page 1 of 2 succeeds and page 2 fails. -/
def raster1of2 : ℕ → Option Unit := fun p => if p = 1 then some () else none

/-- **C6, counterexample.**  With 2 pages of which page 2 fails to convert,
`print_pdf` still runs to completion and closes the job on the device (the
final `EndDoc` of src lines 276-283) with only 1 of 2 pages emitted: the
coordinator closes the job when both queues drain, not when
`emittedCount == totalPages`. -/
theorem C6_counterexample :
    printPdf true (some 2) noFail (delivered raster1of2 2)
      = PrintPdfResult.completed ⟨[(.createPrinterDC, true), (.startDoc, true),
          (.startPage, true), (.draw, true), (.endPage, true),
          (.endDoc, true), (.deleteDC, true)], 1, 2⟩ ∧
    ¬ (∀ report, printPdf true (some 2) noFail (delivered raster1of2 2)
          = .completed report →
        (DevCall.endDoc, true) ∈ report.devTrace →
        report.printed = report.total) := by
  refine ⟨by decide, ?_⟩
  intro h
  have h2 := h ⟨[(.createPrinterDC, true), (.startDoc, true),
      (.startPage, true), (.draw, true), (.endPage, true),
      (.endDoc, true), (.deleteDC, true)], 1, 2⟩ (by decide) (by decide)
  exact absurd h2 (by decide)

/-- **C6, amended.**  `print_pdf` closes the job on the emitter once every
*delivered* conversion result has been processed: when every page converts,
the job is closed with `emittedCount = totalPages` (the claim holds in that
case); but when some page `fp ≥ 2` fails to convert, the job is still closed
with `emittedCount = fp - 1 < totalPages`. -/
theorem C6_amended_close_when_queues_drain (N : ℕ) (hN : 1 ≤ N)
    (arrivals : List (ℕ × Unit)) :
    ((arrivals.map Prod.fst).Perm (List.range' 1 N) →
      ∃ report, printPdf true (some N) noFail arrivals = .completed report ∧
        (DevCall.endDoc, true) ∈ report.devTrace ∧
        report.printed = N ∧ report.total = N) ∧
    (∀ (fp : ℕ) (rasterize : ℕ → Option Unit), 2 ≤ fp → fp ≤ N →
      (∀ p ∈ List.range' 1 N, ((rasterize p).isSome ↔ p ≠ fp)) →
      (arrivals.map Prod.fst).Perm ((delivered rasterize N).map Prod.fst) →
      ∃ report, printPdf true (some N) noFail arrivals = .completed report ∧
        (DevCall.endDoc, true) ∈ report.devTrace ∧
        report.printed = fp - 1 ∧ report.printed < report.total) := by
  constructor
  · intro hperm
    have hout := runRB_perm_out N arrivals hperm
    obtain ⟨X, hem, hend⟩ := emit_all_ok N hN
    refine ⟨⟨X, N, N⟩, ?_, hend, rfl, rfl⟩
    rw [printPdf_completed, hout, hem]
    rfl
  · intro fp rasterize hfp2 hfpN hrast hperm
    obtain ⟨hnone, hout, hbuf⟩ :=
      runRB_one_missing N fp rasterize arrivals (by omega) hfpN hrast hperm
    obtain ⟨X, hem⟩ := emit_prefix_ok N fp hfp2 hfpN
    refine ⟨⟨X ++ [(.endDoc, true), (.deleteDC, true)], fp - 1, N⟩, ?_,
      by simp, rfl, by simp; omega⟩
    rw [printPdf_completed, hout, hem]
    simp [finalClose_ready_ok]

/-- Witness for the amended C6: `N = 2` with both pages converting (close at
`emittedCount = 2`), and `N = 2` with page 2 failing (close at
`emittedCount = 1 < 2`). -/
theorem C6_amended_close_when_queues_drain_witness :
    (∃ report, printPdf true (some 2) noFail [(2, ()), (1, ())]
        = .completed report ∧
      (DevCall.endDoc, true) ∈ report.devTrace ∧
      report.printed = 2 ∧ report.total = 2) ∧
    (∃ report, printPdf true (some 2) noFail (delivered raster1of2 2)
        = .completed report ∧
      (DevCall.endDoc, true) ∈ report.devTrace ∧
      report.printed = 2 - 1 ∧ report.printed < report.total) :=
  ⟨(C6_amended_close_when_queues_drain 2 (by decide) [(2, ()), (1, ())]).1
      (by decide),
    (C6_amended_close_when_queues_drain 2 (by decide)
        (delivered raster1of2 2)).2 2 raster1of2 (by decide) (by decide)
      (by decide) (by decide)⟩

end ClaimC6

/-! ### Emission runs after a failed session open -/

theorem piw_none_page (f : DevCall → Bool) (p t : ℕ) (hp : p ≠ 1) :
    print_image_working f p t none = ⟨[], true, none⟩ := by
  unfold print_image_working
  rw [if_neg hp]

theorem piw_unready_page (p t : ℕ) (hp : p ≠ 1) :
    print_image_working (failOnly .createPrinterDC) p t (some ⟨false⟩)
      = ⟨[(.startPage, false), (.abortDoc, true), (.deleteDC, true)],
        true, none⟩ := by
  unfold print_image_working
  rw [if_neg hp]
  rfl

/-- After the session open fails on page 1, every later page fails its
`StartPage` (or finds no DC at all): nothing is drawn and the `printed`
counter never moves. -/
theorem emit_unready :
    ∀ (l : List ℕ) (t c : ℕ) (tr : List (DevCall × Bool)) (dc : Option DC),
      (∀ p ∈ l, p ≠ 1) →
      (dc = none ∨ dc = some ⟨false⟩) →
      ∃ X dc2,
        l.foldl (emitStep (failOnly .createPrinterDC) t) (tr, dc, c)
          = (tr ++ X, dc2, c) ∧
        (dc2 = none ∨ dc2 = some ⟨false⟩) ∧
        (∀ b, (DevCall.draw, b) ∉ X)
  | [], t, c, tr, dc => by
    intro hl hdc
    exact ⟨[], dc, by simp, hdc, by simp⟩
  | p :: l, t, c, tr, dc => by
    intro hl hdc
    have hp : p ≠ 1 := hl p (by simp)
    have hl' : ∀ q ∈ l, q ≠ 1 := fun q hq => hl q (by simp [hq])
    rcases hdc with rfl | rfl
    · have hstep : emitStep (failOnly .createPrinterDC) t (tr, none, c) p
          = (tr, none, c) := by
        simp [emitStep, piw_none_page _ p t hp]
      rw [List.foldl_cons, hstep]
      exact emit_unready l t c tr none hl' (Or.inl rfl)
    · have hstep : emitStep (failOnly .createPrinterDC) t (tr, some ⟨false⟩, c) p
          = (tr ++ [(.startPage, false), (.abortDoc, true), (.deleteDC, true)],
            none, c) := by
        simp [emitStep, piw_unready_page p t hp]
      rw [List.foldl_cons, hstep]
      obtain ⟨X, dc2, hX, hdc2, hdraw⟩ := emit_unready l t c
        (tr ++ [(.startPage, false), (.abortDoc, true), (.deleteDC, true)])
        none hl' (Or.inl rfl)
      refine ⟨[(.startPage, false), (.abortDoc, true), (.deleteDC, true)] ++ X,
        dc2, ?_, hdc2, ?_⟩
      · rw [hX, List.append_assoc]
      · intro b
        simp only [List.mem_append]
        rintro (h | h)
        · simp at h
        · exact hdraw b h

section ClaimC7

/-- **C7, counterexample.**  When the printer DC cannot be created on page 1
(`CreatePrinterDC` fails), no page is drawn — but the job does *not*
terminate in a distinct Failed phase: the error is swallowed by
`print_worker`, `print_pdf` runs to normal completion reporting
`printed = 0`, indistinguishable in kind from a run with per-page failures
(a successful run ends in the very same `completed` shape). -/
theorem C7_counterexample :
    printPdf true (some 1) (failOnly .createPrinterDC) (delivered rasterAll 1)
      = .completed ⟨[(.createPrinterDC, false), (.endDoc, false)], 0, 1⟩ ∧
    (∀ b, (DevCall.draw, b) ∉ devTraceOf (printPdf true (some 1)
        (failOnly .createPrinterDC) (delivered rasterAll 1))) ∧
    (∃ report, printPdf true (some 1) noFail (delivered rasterAll 1)
        = .completed report) := by
  refine ⟨by decide, by decide,
    ⟨⟨[(.createPrinterDC, true), (.startDoc, true), (.startPage, true),
        (.draw, true), (.endPage, true), (.endDoc, true), (.deleteDC, true)],
      1, 1⟩, by decide⟩⟩

/-- **C7, amended.**  If opening the device session fails on page 1, zero
pages are drawn on the device (every subsequent page fails before its draw),
and the job runs to *normal* completion reporting `printed = 0` of `N` — the
code has no distinct Failed outcome for fatal device errors. -/
theorem C7_amended_open_failure_draws_nothing (N : ℕ) (hN : 1 ≤ N)
    (arrivals : List (ℕ × Unit))
    (hperm : (arrivals.map Prod.fst).Perm (List.range' 1 N)) :
    ∃ report, printPdf true (some N) (failOnly .createPrinterDC) arrivals
        = .completed report ∧
      report.printed = 0 ∧ report.total = N ∧
      (∀ b, (DevCall.draw, b) ∉ report.devTrace) := by
  have hout := runRB_perm_out N arrivals hperm
  have e1 : List.range' 1 N = 1 :: List.range' 2 (N - 1) := by
    have h := List.range'_succ 1 (N - 1) 1
    rw [show N - 1 + 1 = N by omega] at h
    simpa using h
  have hstep : emitStep (failOnly .createPrinterDC) N ([], none, 0) 1
      = ([(.createPrinterDC, false)], some ⟨false⟩, 0) := rfl
  obtain ⟨X, dc2, hX, hdc2, hdraw⟩ := emit_unready (List.range' 2 (N - 1)) N 0
    [(.createPrinterDC, false)] (some ⟨false⟩)
    (fun p hp => by have := List.mem_range'_1.mp hp; omega) (Or.inr rfl)
  have hem : emitFold (failOnly .createPrinterDC) N (List.range' 1 N)
      = ([(.createPrinterDC, false)] ++ X, dc2, 0) := by
    rw [emitFold, e1, List.foldl_cons, hstep]
    exact hX
  refine ⟨⟨finalClose (failOnly .createPrinterDC)
      ([(.createPrinterDC, false)] ++ X) dc2, 0, N⟩, ?_, rfl, rfl, ?_⟩
  · rw [printPdf_completed, hout, hem]
  · intro b
    rcases hdc2 with rfl | rfl
    · rw [finalClose_none]
      simp only [List.mem_append]
      rintro (h | h)
      · simp at h
      · exact hdraw b h
    · rw [finalClose_unready]
      simp only [List.mem_append, List.mem_singleton]
      rintro ((h | h) | h)
      · simp at h
      · exact hdraw b h
      · simp at h

/-- Witness for the amended C7: `N = 2` with out-of-order arrivals. -/
theorem C7_amended_open_failure_draws_nothing_witness :
    ∃ report, printPdf true (some 2) (failOnly .createPrinterDC)
        [(2, ()), (1, ())] = .completed report ∧
      report.printed = 0 ∧ report.total = 2 ∧
      (∀ b, (DevCall.draw, b) ∉ report.devTrace) :=
  C7_amended_open_failure_draws_nothing 2 (by decide) [(2, ()), (1, ())]
    (by decide)

end ClaimC7

/-! ### Scaling and centering (src lines 184-204) -/

/-- The scale-to-fit computation of `_print_image_working`:
`scale = min(printer_width / img_width, printer_height / img_height)` (true
division), `new_width = int(img_width * scale)` and
`new_height = int(img_height * scale)` (truncation of a non-negative value,
i.e. floor), `x = (printer_width - new_width) // 2` and
`y = (printer_height - new_height) // 2` (floor division); the image is
drawn in the rectangle `(x, y, x + new_width, y + new_height)`. -/
def fitToPage (printerWidth printerHeight imgWidth imgHeight : ℕ) :
    ℕ × ℕ × ℤ × ℤ :=
  let scale : ℚ :=
    min ((printerWidth : ℚ) / imgWidth) ((printerHeight : ℚ) / imgHeight)
  let newWidth : ℕ := ⌊(imgWidth : ℚ) * scale⌋₊
  let newHeight : ℕ := ⌊(imgHeight : ℚ) * scale⌋₊
  let x : ℤ := ((printerWidth : ℤ) - newWidth).fdiv 2
  let y : ℤ := ((printerHeight : ℤ) - newHeight).fdiv 2
  (newWidth, newHeight, x, y)

theorem fdiv_two_center (T n : ℕ) (hn : n ≤ T) :
    0 ≤ ((T : ℤ) - n).fdiv 2 ∧
    ((T : ℤ) - n).fdiv 2 + n ≤ (T : ℤ) ∧
    ((T : ℤ) - n - 2 * (((T : ℤ) - n).fdiv 2) = 0 ∨
      (T : ℤ) - n - 2 * (((T : ℤ) - n).fdiv 2) = 1) := by
  have hA : (0 : ℤ) ≤ (T : ℤ) - n := by
    have hc : (n : ℤ) ≤ T := by exact_mod_cast hn
    omega
  have h1 := Int.fdiv_add_fmod ((T : ℤ) - n) 2
  have h2 := Int.fmod_nonneg' ((T : ℤ) - n) (by norm_num : (0 : ℤ) < 2)
  have h3 := Int.fmod_lt_of_pos ((T : ℤ) - n) (by norm_num : (0 : ℤ) < 2)
  omega

theorem scaled_side_le (T T2 s s2 : ℕ) (hs : 0 < s) :
    ⌊(s : ℚ) * min ((T : ℚ) / s) ((T2 : ℚ) / s2)⌋₊ ≤ T := by
  have hsQ : (0 : ℚ) < s := by exact_mod_cast hs
  have hle : (s : ℚ) * min ((T : ℚ) / s) ((T2 : ℚ) / s2) ≤ (T : ℚ) := by
    calc (s : ℚ) * min ((T : ℚ) / s) ((T2 : ℚ) / s2)
        ≤ (s : ℚ) * ((T : ℚ) / s) :=
          mul_le_mul_of_nonneg_left (min_le_left _ _) (le_of_lt hsQ)
      _ = (T : ℚ) := by field_simp
  have hf := Nat.floor_mono hle
  rwa [Nat.floor_natCast] at hf

section ClaimC9

/-- **C9.** For every image of size `w × h` (both positive) drawn on a
surface of size `W × H`, the emission routine computes
`scale = min(W/w, H/h)`, `newWidth = int(w * scale)`,
`newHeight = int(h * scale)`, and the top-left offset
`((W - newWidth) // 2, (H - newHeight) // 2)`; the scaled image fits on the
surface (`newWidth ≤ W`, `newHeight ≤ H`, the draw rectangle stays within
`[0, W] × [0, H]`) and is centered (opposite margins differ by at most
one device pixel, the floor-division remainder). -/
theorem C9_scale_fit_centered (W H w h : ℕ) (hw : 0 < w) (hh : 0 < h) :
    (fitToPage W H w h).1 = ⌊(w : ℚ) * min ((W : ℚ) / w) ((H : ℚ) / h)⌋₊ ∧
    (fitToPage W H w h).2.1 = ⌊(h : ℚ) * min ((W : ℚ) / w) ((H : ℚ) / h)⌋₊ ∧
    (fitToPage W H w h).2.2.1 = ((W : ℤ) - (fitToPage W H w h).1).fdiv 2 ∧
    (fitToPage W H w h).2.2.2 = ((H : ℤ) - (fitToPage W H w h).2.1).fdiv 2 ∧
    (fitToPage W H w h).1 ≤ W ∧
    (fitToPage W H w h).2.1 ≤ H ∧
    0 ≤ (fitToPage W H w h).2.2.1 ∧
    (fitToPage W H w h).2.2.1 + (fitToPage W H w h).1 ≤ (W : ℤ) ∧
    0 ≤ (fitToPage W H w h).2.2.2 ∧
    (fitToPage W H w h).2.2.2 + (fitToPage W H w h).2.1 ≤ (H : ℤ) ∧
    ((W : ℤ) - (fitToPage W H w h).1 - 2 * (fitToPage W H w h).2.2.1 = 0 ∨
      (W : ℤ) - (fitToPage W H w h).1 - 2 * (fitToPage W H w h).2.2.1 = 1) ∧
    ((H : ℤ) - (fitToPage W H w h).2.1 - 2 * (fitToPage W H w h).2.2.2 = 0 ∨
      (H : ℤ) - (fitToPage W H w h).2.1 - 2 * (fitToPage W H w h).2.2.2 = 1) := by
  have hnw : ⌊(w : ℚ) * min ((W : ℚ) / w) ((H : ℚ) / h)⌋₊ ≤ W :=
    scaled_side_le W H w h hw
  have hnh : ⌊(h : ℚ) * min ((H : ℚ) / h) ((W : ℚ) / w)⌋₊ ≤ H :=
    scaled_side_le H W h w hh
  have hnh' : ⌊(h : ℚ) * min ((W : ℚ) / w) ((H : ℚ) / h)⌋₊ ≤ H := by
    rwa [min_comm] at hnh
  obtain ⟨hx0, hxW, hxc⟩ :=
    fdiv_two_center W (⌊(w : ℚ) * min ((W : ℚ) / w) ((H : ℚ) / h)⌋₊) hnw
  obtain ⟨hy0, hyH, hyc⟩ :=
    fdiv_two_center H (⌊(h : ℚ) * min ((W : ℚ) / w) ((H : ℚ) / h)⌋₊) hnh'
  exact ⟨rfl, rfl, rfl, rfl, hnw, hnh', hx0, hxW, hy0, hyH, hxc, hyc⟩

/-- Witness for C9: a 50 × 40 image on a 100 × 200 surface. -/
theorem C9_scale_fit_centered_witness :
    (fitToPage 100 200 50 40).1
        = ⌊(50 : ℚ) * min ((100 : ℚ) / 50) ((200 : ℚ) / 40)⌋₊ ∧
    (fitToPage 100 200 50 40).2.1
        = ⌊(40 : ℚ) * min ((100 : ℚ) / 50) ((200 : ℚ) / 40)⌋₊ ∧
    (fitToPage 100 200 50 40).2.2.1
        = ((100 : ℤ) - (fitToPage 100 200 50 40).1).fdiv 2 ∧
    (fitToPage 100 200 50 40).2.2.2
        = ((200 : ℤ) - (fitToPage 100 200 50 40).2.1).fdiv 2 ∧
    (fitToPage 100 200 50 40).1 ≤ 100 ∧
    (fitToPage 100 200 50 40).2.1 ≤ 200 ∧
    0 ≤ (fitToPage 100 200 50 40).2.2.1 ∧
    (fitToPage 100 200 50 40).2.2.1 + (fitToPage 100 200 50 40).1 ≤ (100 : ℤ) ∧
    0 ≤ (fitToPage 100 200 50 40).2.2.2 ∧
    (fitToPage 100 200 50 40).2.2.2 + (fitToPage 100 200 50 40).2.1
        ≤ (200 : ℤ) ∧
    ((100 : ℤ) - (fitToPage 100 200 50 40).1
        - 2 * (fitToPage 100 200 50 40).2.2.1 = 0 ∨
      (100 : ℤ) - (fitToPage 100 200 50 40).1
        - 2 * (fitToPage 100 200 50 40).2.2.1 = 1) ∧
    ((200 : ℤ) - (fitToPage 100 200 50 40).2.1
        - 2 * (fitToPage 100 200 50 40).2.2.2 = 0 ∨
      (200 : ℤ) - (fitToPage 100 200 50 40).2.1
        - 2 * (fitToPage 100 200 50 40).2.2.2 = 1) := by
  have hcast : ((100 : ℕ) : ℚ) = (100 : ℚ) ∧ ((200 : ℕ) : ℚ) = (200 : ℚ) ∧
      ((50 : ℕ) : ℚ) = (50 : ℚ) ∧ ((40 : ℕ) : ℚ) = (40 : ℚ) ∧
      ((100 : ℕ) : ℤ) = (100 : ℤ) ∧ ((200 : ℕ) : ℤ) = (200 : ℤ) := by
    norm_num
  have hmain := C9_scale_fit_centered 100 200 50 40 (by norm_num) (by norm_num)
  obtain ⟨c1, c2, c3, c4, c5, c6⟩ := hcast
  rw [c1, c2, c3, c4, c5, c6] at hmain
  exact hmain

end ClaimC9

/-! ### The HTTP handlers of `print_server.py` -/

/-- The keyword parameters accepted by `WorkingPDFPrinter.__init__`
(pdf_printer.py line 69): `printer_name`, `dpi`, `threads`. -/
def initParams : List String := ["printer_name", "dpi", "threads"]

/-- The keyword arguments the synchronous `/print` handler passes to
`WorkingPDFPrinter` (print_server.py lines 90-95), including `margin_mm`. -/
def printEndpointKwargs : List String :=
  ["printer_name", "dpi", "threads", "margin_mm"]

/-- The keyword arguments the `/print-async` background worker passes to
`WorkingPDFPrinter` (print_server.py lines 167-171). -/
def printAsyncEndpointKwargs : List String := ["printer_name", "dpi", "threads"]

/-- Python accepts a call only when every keyword argument names an accepted
parameter; otherwise the constructor raises `TypeError`. -/
def initCallOk (kwargs : List String) : Bool :=
  kwargs.all (fun k => initParams.contains k)

/-- HTTP statuses the handlers can return. -/
inductive HandlerStatus where
  | badRequest
  | notFoundResp
  | serverError
  | okResp
deriving DecidableEq, Repr

/-- The `/print` handler (print_server.py lines 51-120): validate the body,
check the file, construct `WorkingPDFPrinter` — a `TypeError` from a keyword
the constructor does not accept is caught by the blanket `except` and turned
into the 500 response — and only then call `print_pdf`.  Returns the status
and whether `print_pdf` was reached. -/
def printHandler (hasFilePath fileExists printPdfRaises : Bool) :
    HandlerStatus × Bool :=
  if !hasFilePath then (.badRequest, false)
  else if !fileExists then (.notFoundResp, false)
  else if !(initCallOk printEndpointKwargs) then (.serverError, false)
  else if printPdfRaises then (.serverError, true)
  else (.okResp, true)

section ClaimC10

/-- **C10.** Every POST to the synchronous `/print` endpoint whose body
names an existing file returns the 500 error response and never reaches
`print_pdf`, because the handler passes the keyword argument `margin_mm`,
which `WorkingPDFPrinter.__init__` does not accept (so construction raises
`TypeError`); the `/print-async` endpoint omits `margin_mm`, so its job
construction does not fail this way. -/
theorem C10_print_endpoint_margin_mm (printPdfRaises : Bool) :
    printHandler true true printPdfRaises = (.serverError, false) ∧
    initCallOk printEndpointKwargs = false ∧
    initCallOk printAsyncEndpointKwargs = true := by
  refine ⟨rfl, by decide, by decide⟩

end ClaimC10

end PdfPipeline
